import Mathlib

/-!
Shallow embedding of `src/app.py` of the no-design-foundry backend.

The file models the glyph-selection, closure, minimal-font-assembly and
response-assembly pipeline of `process_font` (src/app.py, lines 59-186)
together with the module-level tables `suffix_name_map`, `ranges` and the
helper `is_in_ranges`.  External collaborators (fontTools parsing, the three
visual filters, the harfbuzz kerning extractor, base64 encoding) are taken as
parameters of the pipeline; helpers that live in this repository but outside
`src/` (`tools.generic`) are modelled from the spec and marked as such in
their doc comments.
-/

set_option autoImplicit false

namespace NDF

abbrev CodePoint := Nat
abbrev GlyphName := String

/-- The entries of `tt_font.getBestCmap()` in dict order: code point to glyph
name.  A well-formed cmap (a Python dict) has pairwise distinct keys. -/
abbrev Cmap := List (CodePoint × GlyphName)

/-- `d.get(k, None)` on a Python dict, modelled on the underlying entry list
(first match; a dict has unique keys, so the choice is immaterial). -/
def dictGet {K V : Type} [DecidableEq K] : List (K × V) → K → Option V
  | [], _ => none
  | kv :: rest, k => if kv.1 = k then some kv.2 else dictGet rest k

/-- `d[k] = v` on a Python dict: update the value in place when the key is
present, append a fresh entry otherwise. -/
def dictInsert {K V : Type} [DecidableEq K] (d : List (K × V)) (k : K) (v : V) :
    List (K × V) :=
  if d.any (fun kv => decide (kv.1 = k)) then
    d.map (fun kv => if kv.1 = k then (k, v) else kv)
  else d ++ [(k, v)]

/-- `{v: k for k, v in cmap.items()}` (src/app.py line 79): a plain dict
inversion, last write wins on a repeated glyph name. -/
def reverseCmap (cmap : Cmap) : List (GlyphName × CodePoint) :=
  cmap.foldl (fun d kv => dictInsert d kv.2 kv.1) []

/-- `ranges` (src/app.py lines 47-49). -/
def ranges : List (Nat × Nat) := [(32, 126)]

/-- `is_in_ranges` (src/app.py lines 52-56). -/
def is_in_ranges (code_point : Nat) : Bool :=
  ranges.any (fun r => decide (r.1 ≤ code_point) && decide (code_point ≤ r.2))

/-- Errors the pipeline can surface, in source order of the raising site. -/
inductive PErr
  | filterNotFound
  | fontFileMissing
  | previewTooLong
  | fontParseError
  | previewStringNone
  | hmtxKeyError
deriving DecidableEq, Repr

/-- The read-only view of the parsed source font that `process_font` uses.
`components` is the component graph read by the closure helper. -/
structure TTFontData where
  cmap : Cmap
  unitsPerEm : Nat
  bestFamilyName : String
  bestSubFamilyName : String
  hmtx : List (GlyphName × Nat)
  hasCFF : Bool
  hasCFF2 : Bool
  hasGlyf : Bool
  components : GlyphName → List GlyphName

/-- Download-mode initial selection (src/app.py lines 81-84): every glyph of
the reversed cmap whose code point passes `is_in_ranges`. -/
def downloadSelection (cmap_reversed : List (GlyphName × CodePoint)) :
    List GlyphName :=
  (cmap_reversed.filter (fun kv => is_in_ranges kv.2)).map Prod.fst

/-- Preview-mode initial selection (src/app.py lines 86-88):
`[cmap.get(ord(char), None) for char in set(preview_string)]`.  The Python
set is modelled by `List.dedup` (its iteration order is unspecified; only
membership matters downstream).  Note the `None` default: an unmapped
character contributes a `none` entry, it is not skipped. -/
def previewSelection (cmap : Cmap) (preview_string : String) :
    List (Option GlyphName) :=
  preview_string.toList.dedup.map (fun char => dictGet cmap char.toNat)

/-- The selection branch of `process_font` (src/app.py lines 81-88).  In
preview mode a missing form field means `preview_string` is `None` and
`set(None)` raises a `TypeError`; an empty string iterates to the empty
selection. -/
def initialSelection (process_for_download : Bool) (cmap : Cmap)
    (preview_string : Option String) :
    Except PErr (List (Option GlyphName)) :=
  if process_for_download then
    .ok ((downloadSelection (reverseCmap cmap)).map some)
  else
    match preview_string with
    | none => .error .previewStringNone
    | some s => .ok (previewSelection cmap s)

/-- One breadth step per unit of fuel over the component graph, keeping a
visited list `seen` and accumulating the newly discovered glyphs. -/
def componentSearch (components : GlyphName → List GlyphName) :
    Nat → List GlyphName → List GlyphName → List GlyphName → List GlyphName
  | 0, _, _, acc => acc
  | fuel + 1, seen, frontier, acc =>
    let next := ((frontier.flatMap components).dedup).filter
      (fun g => decide (g ∉ seen))
    componentSearch components fuel (seen ++ next) next (acc ++ next)

/-- Modelled from the spec: `get_components_in_subsetted_text`
(`tools.generic`, not under src/) collects every transitively referenced
component glyph id with a visited set, deduplicated, returning only glyphs
not already present in the given selection (they are unioned into the result
by the caller).  The fuel bounds the depth of the component DAG; in a
well-formed font `hmtx` lists every glyph, so the bound is ample. -/
def get_components_in_subsetted_text (tt : TTFontData)
    (glyph_names : List (Option GlyphName)) : List GlyphName :=
  let seeds := glyph_names.reduceOption.dedup
  componentSearch tt.components (tt.hmtx.length + glyph_names.length + 1)
    seeds seeds []

/-- Lines 90-91 of src/app.py: compute the component glyphs of the initial
selection and `extend` the selection with them. -/
def closeSelection (tt : TTFontData) (initial : List (Option GlyphName)) :
    List (Option GlyphName) :=
  initial ++ (get_components_in_subsetted_text tt initial).map some

/-- Which outline table the per-glyph extraction branch would replay from
(src/app.py lines 105-110): `"CFF "` beats `"CFF2"` beats `"glyf"`. -/
inductive OutlineKind
  | cff
  | cff2
  | glyf
deriving DecidableEq, Repr

def extractOutline (tt : TTFontData) : Option OutlineKind :=
  if tt.hasCFF then some .cff
  else if tt.hasCFF2 then some .cff2
  else if tt.hasGlyf then some .glyf
  else none

/-- The observable result of one iteration of the assembly loop: the glyph
created by `ufo.newGlyph`, its Unicode, the width copied (if any) and the
outline table replayed onto its pen (if any). -/
structure GlyphRecord where
  name : Option GlyphName
  unicode : Option CodePoint
  width : Option Nat
  outline : Option OutlineKind
deriving DecidableEq, Repr

/-- One iteration of the loop at src/app.py lines 99-110.  Width copy and
outline extraction both sit under `if filter_identifier in ["extruder"]`;
`metrics[glyph_name]` raises a `KeyError` when the selection entry is `None`
or absent from `hmtx`. -/
def assembleGlyph (filter_identifier : String) (tt : TTFontData)
    (cmap_reversed : List (GlyphName × CodePoint))
    (glyph_name : Option GlyphName) : Except PErr GlyphRecord :=
  let unicode := glyph_name.bind (fun g => dictGet cmap_reversed g)
  if decide (filter_identifier ∈ (["extruder"] : List String)) then
    match glyph_name.bind (fun g => dictGet tt.hmtx g) with
    | none => .error .hmtxKeyError
    | some w =>
      .ok { name := glyph_name, unicode := unicode, width := some w,
            outline := extractOutline tt }
  else
    .ok { name := glyph_name, unicode := unicode, width := none,
          outline := none }

def assembleGlyphs (filter_identifier : String) (tt : TTFontData)
    (cmap_reversed : List (GlyphName × CodePoint)) :
    List (Option GlyphName) → Except PErr (List GlyphRecord)
  | [] => .ok []
  | g :: rest =>
    match assembleGlyph filter_identifier tt cmap_reversed g with
    | .error e => .error e
    | .ok r =>
      match assembleGlyphs filter_identifier tt cmap_reversed rest with
      | .error e => .error e
      | .ok rs => .ok (r :: rs)

/-- The defcon `Font` being assembled (src/app.py lines 93-97, 134-138). -/
structure UFO where
  unitsPerEm : Nat
  familyName : Option String
  styleName : Option String
  glyphs : List GlyphRecord
  kerning : List ((GlyphName × GlyphName) × Int)
  infoImported : Bool
deriving DecidableEq, Repr

structure FontIdentity where
  familyName : String
  styleName : String
deriving DecidableEq, Repr

/-- An output font of a filter: either a defcon `Font` or a `TTFont`
(src/app.py lines 150-153 branch on `isinstance(font, Font)`).  The payload
stands for the non-identity data of the font. -/
inductive OutFont
  | ufo (ident : FontIdentity) (payload : Nat)
  | tt (ident : FontIdentity) (payload : Nat)
deriving DecidableEq, Repr

/-- Modelled from the spec: `rename_name_ufo` / `rename_name_ttfont`
(`tools.generic`, not under src/) mutate the font-family identity strings by
appending the suffix. -/
def appendSuffix (ident : FontIdentity) (suffix : String) : FontIdentity :=
  { ident with familyName := ident.familyName ++ " " ++ suffix }

/-- The `isinstance` dispatch of src/app.py lines 150-153: the same rename is
applied whichever concrete representation the filter returned. -/
def renameOutFont (font : OutFont) (suffix : String) : OutFont :=
  match font with
  | .ufo ident payload => .ufo (appendSuffix ident suffix) payload
  | .tt ident payload => .tt (appendSuffix ident suffix) payload

/-- `suffix_name_map` (src/app.py lines 41-45), read as a total function. -/
def suffix_name_map (filter_identifier : String) : List String :=
  if filter_identifier = "rotorizer" then
    ["Rotorized Underlay", "Rotorized Overlay"]
  else if filter_identifier = "rasterizer" then ["Rasterized"]
  else if filter_identifier = "extruder" then ["Extruded"]
  else []

/-- The rename loop (src/app.py lines 147-153): index into the suffix table
by position and rename when the suffix is non-empty.  (Python would raise an
`IndexError` past the end of the table; the arities produced by the dispatch
never exceed it, so the `getD` default is never renamed with.) -/
def renameOutputs (filter_identifier : String) (output : List OutFont) :
    List OutFont :=
  output.enum.map (fun fi =>
    let suffix := (suffix_name_map filter_identifier).getD fi.1 ""
    if suffix = "" then fi.2 else renameOutFont fi.2 suffix)

/-- The external collaborators of the pipeline, taken as parameters:
fontTools parsing, the three filters, the harfbuzz kerning extractor of
`tools.generic`, and base64 serialisation (`fonts_to_base64`, modelled from
the spec as one transport-safe string per output font, and
`base64.b64encode` on the raw upload).  The spec fixes `rotorize` to exactly
two output fonts, underlay then overlay, so it is modelled as a pair. -/
structure Externals where
  parse : List Nat → Except PErr TTFontData
  rasterize : UFO → List (Option GlyphName) → Int → OutFont
  rotorize : UFO → List (Option GlyphName) →
    List (GlyphName × CodePoint) → Int → OutFont × OutFont
  extrude : UFO → List (Option GlyphName) → Int → OutFont
  extract_kerning_hb : List Nat → List (GlyphName × Nat) → Option String →
    Cmap → List ((GlyphName × GlyphName) × Int)
  encodeFont : OutFont → String
  encodeBytes : List Nat → String

/-- The parsed multipart form of one request. -/
structure Request where
  font_file : Option (List Nat)
  preview_string : Option String
  resolution : Int := 30
  depth : Int := 200
  angle : Int := 330

/-- Lines 66-69 of src/app.py: `if preview_string:` (falsy for `None` and for
the empty string) then `if len(preview_string) > 30: raise`. -/
def previewLengthCheck (preview_string : Option String) : Except PErr Unit :=
  match preview_string with
  | none => .ok ()
  | some s => if s ≠ "" then
      (if s.length > 30 then .error .previewTooLong else .ok ())
    else .ok ()

/-- `widths` (src/app.py line 135): hmtx advance widths restricted to the
selected glyph names (`k in glyph_names_to_process` compares the string key
against the entries, so it holds exactly when `some k` is an entry). -/
def extruderWidths (hmtx : List (GlyphName × Nat))
    (glyph_names_to_process : List (Option GlyphName)) :
    List (GlyphName × Nat) :=
  hmtx.filter (fun kv => decide ((some kv.1) ∈ glyph_names_to_process))

/-- The merge loop of src/app.py lines 137-138:
`for k, v in extracted_kerning.items(): ufo.kerning[k] = v`. -/
def mergeKerning (base ext : List ((GlyphName × GlyphName) × Int)) :
    List ((GlyphName × GlyphName) × Int) :=
  ext.foldl (fun d kv => dictInsert d kv.1 kv.2) base

/-- The arguments the extruder branch hands to its collaborators, recorded so
that theorems can speak about what the filter invocation received. -/
structure ExtruderCall where
  ufo : UFO
  glyph_names : List (Option GlyphName)
  angle : Int
  widthsArg : List (GlyphName × Nat)
  contentArg : Option String
  fontBytesArg : List Nat
deriving DecidableEq, Repr

/-- The extruder branch (src/app.py lines 132-145): import extended identity
metadata (`extractOpenTypeInfo`), restrict widths to the selection, extract
kerning with the preview string as shaping content, merge it into the ufo
kerning table, then invoke `extrude_variable` on the prepared font. -/
def extruderStage (E : Externals) (tt : TTFontData) (font_file : List Nat)
    (preview_string : Option String) (ufo : UFO)
    (glyphs : List (Option GlyphName)) (angle : Int) :
    ExtruderCall × OutFont :=
  let ufo1 := { ufo with infoImported := true }
  let widths := extruderWidths tt.hmtx glyphs
  let extracted := E.extract_kerning_hb font_file widths preview_string tt.cmap
  let ufo2 := { ufo1 with kerning := mergeKerning ufo1.kerning extracted }
  let call : ExtruderCall :=
    { ufo := ufo2, glyph_names := glyphs, angle := angle, widthsArg := widths,
      contentArg := preview_string, fontBytesArg := font_file }
  (call, E.extrude ufo2 glyphs angle)

/-- The filter dispatch of src/app.py lines 112-145, producing the `output`
list of fonts.  It does not depend on the processing mode: in particular the
extruder branch passes whatever `preview_string` the request supplied. -/
def dispatchFilter (filter_identifier : String) (E : Externals)
    (tt : TTFontData) (font_file : List Nat) (req : Request) (ufo : UFO)
    (glyphs : List (Option GlyphName))
    (cmap_reversed : List (GlyphName × CodePoint)) : List OutFont :=
  if filter_identifier = "rasterizer" then
    [E.rasterize ufo glyphs req.resolution]
  else if filter_identifier = "rotorizer" then
    let pair := E.rotorize ufo glyphs cmap_reversed req.depth
    [pair.1, pair.2]
  else
    [(extruderStage E tt font_file req.preview_string ufo glyphs req.angle).2]

/-- `missing_glyphs` (src/app.py lines 168-172): the characters of the
preview string with no cmap entry, in order, duplicates kept. -/
def missing_glyphs (cmap : Cmap) (preview_string : String) : List Char :=
  preview_string.toList.filter
    (fun character => (dictGet cmap character.toNat).isNone)

/-- The warning text of src/app.py line 175. -/
def missingWarning (chars : List Char) : String :=
  "Your font is missing these characters: " ++
    String.intercalate ", " (chars.map Char.toString)

/-- `warnings` (src/app.py lines 167-176). -/
def preview_warnings (cmap : Cmap) (preview_string : String) : List String :=
  if missing_glyphs cmap preview_string = [] then []
  else [missingWarning (missing_glyphs cmap preview_string)]

/-- The echoed `preview_string` (src/app.py lines 182-184): every character
that is in the missing list is dropped, the rest keep their order. -/
def preview_echo (cmap : Cmap) (preview_string : String) : String :=
  String.mk (preview_string.toList.filter
    (fun char => decide (char ∉ missing_glyphs cmap preview_string)))

/-- Externally visible side effects of one run. -/
inductive Effect
  | gcCollect
  | saveFile (name : String)
deriving DecidableEq, Repr

/-- The response payload plus the side effects of the run.  `warnings` and
`preview_echo` are `none` for the download-mode payload, which carries only
`fonts`. -/
structure PipelineResult where
  fonts : List String
  warnings : Option (List String)
  preview_echo : Option String
  effects : List Effect
deriving DecidableEq, Repr

/-- `process_font` (src/app.py lines 59-186). -/
def process_font (filter_identifier : String) (req : Request)
    (process_for_download : Bool) (E : Externals) :
    Except PErr PipelineResult :=
  if ¬ decide (filter_identifier ∈
      (["rasterizer", "rotorizer", "extruder"] : List String)) then
    .error .filterNotFound
  else
    match req.font_file with
    | none => .error .fontFileMissing
    | some font_file =>
      match previewLengthCheck req.preview_string with
      | .error e => .error e
      | .ok _ =>
        match E.parse font_file with
        | .error e => .error e
        | .ok tt =>
          let cmap := tt.cmap
          let cmap_reversed := reverseCmap cmap
          match initialSelection process_for_download cmap
              req.preview_string with
          | .error e => .error e
          | .ok initial =>
            let glyph_names_to_process := closeSelection tt initial
            match assembleGlyphs filter_identifier tt cmap_reversed
                glyph_names_to_process with
            | .error e => .error e
            | .ok records =>
              let ufo : UFO :=
                { unitsPerEm := tt.unitsPerEm
                  familyName := if process_for_download then
                    some tt.bestFamilyName else none
                  styleName := if process_for_download then
                    some tt.bestSubFamilyName else none
                  glyphs := records
                  kerning := []
                  infoImported := false }
              let output := dispatchFilter filter_identifier E tt font_file
                req ufo glyph_names_to_process cmap_reversed
              let renamed := renameOutputs filter_identifier output
              let response0 := renamed.map E.encodeFont
              let response :=
                if filter_identifier = "extruder" then
                  response0 ++ [E.encodeBytes font_file]
                else response0
              let effects : List Effect :=
                [.gcCollect, .saveFile "output.ttf"]
              if process_for_download then
                .ok { fonts := response, warnings := none,
                      preview_echo := none, effects := effects }
              else
                match req.preview_string with
                | none => .error .previewStringNone
                | some s =>
                  .ok { fonts := response,
                        warnings := some (preview_warnings cmap s),
                        preview_echo := some (preview_echo cmap s),
                        effects := effects }

/-! Concrete fixtures used by counterexamples and witnesses. -/

/-- A small glyf-flavoured source font: cmap maps A and B, four glyphs in
hmtx, no composite glyphs. -/
def ttSample : TTFontData :=
  { cmap := [(65, "A"), (66, "B")], unitsPerEm := 1000,
    bestFamilyName := "Fam", bestSubFamilyName := "Reg",
    hmtx := [("A", 500), ("B", 600), ("Aacute", 510), ("acutecomb", 0)],
    hasCFF := false, hasCFF2 := false, hasGlyf := true,
    components := fun _ => [] }

/-- A font whose cmap sends two distinct code points to the same glyph. -/
def ttTwoToOne : TTFontData :=
  { ttSample with cmap := [(65, "A"), (66, "A")] }

def sampleOutFont : OutFont := .ufo { familyName := "Fam", styleName := "Reg" } 7

/-- Concrete collaborators whose parse always yields `tt`. -/
def sampleExternals (tt : TTFontData) : Externals :=
  { parse := fun _ => .ok tt
    rasterize := fun _ _ _ => sampleOutFont
    rotorize := fun _ _ _ _ => (sampleOutFont, sampleOutFont)
    extrude := fun _ _ _ => sampleOutFont
    extract_kerning_hb := fun _ _ _ _ => []
    encodeFont := fun _ => "b64font"
    encodeBytes := fun _ => "b64bytes" }

/-- Collaborators whose parse always fails, to observe that parsing ran. -/
def failExternals : Externals :=
  { sampleExternals ttSample with parse := fun _ => .error .fontParseError }

def reqA : Request := { font_file := some [1, 2, 3], preview_string := some "A" }

def reqNoPS : Request := { font_file := some [1, 2, 3], preview_string := none }

def reqEmptyPS : Request :=
  { font_file := some [1, 2, 3], preview_string := some "" }

/-- A request whose preview string has 31 characters. -/
def reqLongPS : Request :=
  { font_file := some [1, 2, 3],
    preview_string := some "0123456789012345678901234567890" }

/-- The side effects of a run, empty when the run failed. -/
def effectsOf : Except PErr PipelineResult → List Effect
  | .ok r => r.effects
  | .error _ => []

/-- The response of the sample extruder preview request. -/
def processExtruderSample : PipelineResult :=
  { fonts := ["b64font", "b64bytes"], warnings := some [],
    preview_echo := some "A",
    effects := [.gcCollect, .saveFile "output.ttf"] }

/-- The response of the sample rasterizer preview request. -/
def processRasterizerSample : PipelineResult :=
  { fonts := ["b64font"], warnings := some [], preview_echo := some "A",
    effects := [.gcCollect, .saveFile "output.ttf"] }

/-! Helper lemmas. -/

theorem dictInsert_keys_nodup {K V : Type} [DecidableEq K]
    (d : List (K × V)) (k : K) (v : V) (h : (d.map Prod.fst).Nodup) :
    ((dictInsert d k v).map Prod.fst).Nodup := by
  unfold dictInsert
  split
  · have heq : (d.map (fun kv => if kv.1 = k then (k, v) else kv)).map Prod.fst
        = d.map Prod.fst := by
      rw [List.map_map]
      apply List.map_congr_left
      intro kv _
      by_cases hk : kv.1 = k
      · simp [hk]
      · simp [hk]
    rw [heq]
    exact h
  · next hany =>
    rw [List.map_append, List.nodup_append]
    refine ⟨h, List.nodup_singleton k, ?_⟩
    intro a ha hb
    simp only [List.map_cons, List.map_nil, List.mem_singleton] at hb
    subst hb
    rw [List.mem_map] at ha
    obtain ⟨kv, hkv, hfst⟩ := ha
    exact hany (List.any_eq_true.mpr ⟨kv, hkv, decide_eq_true hfst⟩)

theorem reverseCmap_keys_nodup (cmap : Cmap) :
    ((reverseCmap cmap).map Prod.fst).Nodup := by
  unfold reverseCmap
  suffices h : ∀ (l : Cmap) (d : List (GlyphName × CodePoint)),
      (d.map Prod.fst).Nodup →
      ((l.foldl (fun d kv => dictInsert d kv.2 kv.1) d).map Prod.fst).Nodup by
    exact h cmap [] (by simp)
  intro l
  induction l with
  | nil => intro d hd; simpa using hd
  | cons kv rest ih =>
    intro d hd
    exact ih _ (dictInsert_keys_nodup d kv.2 kv.1 hd)

theorem downloadSelection_nodup (rev : List (GlyphName × CodePoint))
    (h : (rev.map Prod.fst).Nodup) : (downloadSelection rev).Nodup := by
  unfold downloadSelection
  exact ((List.filter_sublist rev).map Prod.fst).nodup h

theorem mem_downloadSelection (rev : List (GlyphName × CodePoint))
    (g : GlyphName) :
    g ∈ downloadSelection rev ↔
      ∃ cp, (g, cp) ∈ rev ∧ is_in_ranges cp = true := by
  unfold downloadSelection
  rw [List.mem_map]
  constructor
  · rintro ⟨⟨g1, cp⟩, hmem, rfl⟩
    rw [List.mem_filter] at hmem
    exact ⟨cp, hmem.1, hmem.2⟩
  · rintro ⟨cp, hmem, hrange⟩
    exact ⟨(g, cp), List.mem_filter.mpr ⟨hmem, hrange⟩, rfl⟩

theorem is_in_ranges_iff (cp : Nat) :
    is_in_ranges cp = true ↔ 32 ≤ cp ∧ cp ≤ 126 := by
  simp [is_in_ranges, ranges]

theorem componentSearch_invariant (components : GlyphName → List GlyphName)
    (seeds : List GlyphName) :
    ∀ (fuel : Nat) (frontier acc seen : List GlyphName),
      seen = seeds ++ acc → seen.Nodup →
      (componentSearch components fuel seen frontier acc).Nodup ∧
        ∀ g ∈ componentSearch components fuel seen frontier acc, g ∉ seeds := by
  intro fuel
  induction fuel with
  | zero =>
    intro frontier acc seen hseq hnd
    subst hseq
    rw [List.nodup_append] at hnd
    exact ⟨hnd.2.1, fun g hg hs => hnd.2.2 hs hg⟩
  | succ f ih =>
    intro frontier acc seen hseq hnd
    simp only [componentSearch]
    apply ih
    · rw [hseq, List.append_assoc]
    · rw [List.nodup_append]
      refine ⟨hnd, List.Nodup.filter _ (List.nodup_dedup _), ?_⟩
      intro a ha hb
      rw [List.mem_filter] at hb
      exact (of_decide_eq_true hb.2) ha

theorem componentSearch_nil_frontier (components : GlyphName → List GlyphName) :
    ∀ (fuel : Nat) (seen acc : List GlyphName),
      componentSearch components fuel seen [] acc = acc := by
  intro fuel
  induction fuel with
  | zero => intro seen acc; rfl
  | succ f ih =>
    intro seen acc
    simp only [componentSearch, List.flatMap_nil, List.dedup_nil,
      List.filter_nil, List.append_nil]
    exact ih _ _

theorem closeSelection_shape (tt : TTFontData)
    (initial : List (Option GlyphName)) :
    ∃ comps : List GlyphName,
      closeSelection tt initial = initial ++ comps.map some ∧
        comps.Nodup ∧ ∀ g ∈ comps, some g ∉ initial := by
  refine ⟨get_components_in_subsetted_text tt initial, rfl, ?_, ?_⟩
  · have h := componentSearch_invariant tt.components
      initial.reduceOption.dedup (tt.hmtx.length + initial.length + 1)
      initial.reduceOption.dedup [] initial.reduceOption.dedup
      (List.append_nil _).symm (List.nodup_dedup _)
    exact h.1
  · intro g hg hsome
    have h := componentSearch_invariant tt.components
      initial.reduceOption.dedup (tt.hmtx.length + initial.length + 1)
      initial.reduceOption.dedup [] initial.reduceOption.dedup
      (List.append_nil _).symm (List.nodup_dedup _)
    exact h.2 g hg
      (List.mem_dedup.mpr (List.reduceOption_mem_iff.mpr hsome))

theorem previewSelection_empty (cmap : Cmap) : previewSelection cmap "" = [] :=
  rfl

theorem closeSelection_nil (tt : TTFontData) : closeSelection tt [] = [] := by
  unfold closeSelection get_components_in_subsetted_text
  simp [componentSearch_nil_frontier]

/-- Inversion on a successful run: the fonts field of the response is the
encoded renamed filter output, with the encoded original bytes appended for
the extruder identifier. -/
theorem process_font_ok_fonts (fid : String) (req : Request) (download : Bool)
    (E : Externals) (r : PipelineResult) (bytes : List Nat)
    (hb : req.font_file = some bytes)
    (h : process_font fid req download E = .ok r) :
    ∃ (tt : TTFontData) (ufo : UFO) (glyphs : List (Option GlyphName)),
      r.fonts =
        if fid = "extruder" then
          (renameOutputs fid (dispatchFilter fid E tt bytes req ufo glyphs
              (reverseCmap tt.cmap))).map E.encodeFont ++ [E.encodeBytes bytes]
        else
          (renameOutputs fid (dispatchFilter fid E tt bytes req ufo glyphs
              (reverseCmap tt.cmap))).map E.encodeFont := by
  simp only [process_font, hb] at h
  by_cases hgate : fid ∈ (["rasterizer", "rotorizer", "extruder"] : List String)
  case neg =>
    rw [if_pos (fun hh => hgate (of_decide_eq_true hh))] at h
    simp at h
  case pos =>
    rw [if_neg (not_not_intro (decide_eq_true hgate))] at h
    cases hlen : previewLengthCheck req.preview_string with
    | error e => simp [hlen] at h
    | ok u =>
      simp only [hlen] at h
      cases hp : E.parse bytes with
      | error e => simp [hp] at h
      | ok tt =>
        simp only [hp] at h
        cases hinit : initialSelection download tt.cmap req.preview_string with
        | error e => simp [hinit] at h
        | ok initial =>
          simp only [hinit] at h
          cases hrec : assembleGlyphs fid tt (reverseCmap tt.cmap)
              (closeSelection tt initial) with
          | error e => simp [hrec] at h
          | ok records =>
            simp only [hrec] at h
            by_cases hd : download = true
            · rw [if_pos hd] at h
              injection h with h
              subst h
              exact ⟨tt, _, closeSelection tt initial, rfl⟩
            · rw [if_neg hd] at h
              cases hs : req.preview_string with
              | none => simp [hs] at h
              | some s =>
                simp only [hs] at h
                injection h with h
                subst h
                exact ⟨tt, _, closeSelection tt initial, rfl⟩

/-! Claim theorems. -/

/-- C1 counterexample: with a cmap mapping only code point 65 to glyph A and
preview string AB, the unmapped B is not skipped from the selection: the
selection is `[some A, none]`, containing a `none` placeholder. -/
theorem preview_skip_cex :
    previewSelection [(65, "A")] "AB" = [some "A", none] ∧
      (none : Option GlyphName) ∈ previewSelection [(65, "A")] "AB" := by
  exact ⟨by decide, by decide⟩

/-- C1 amended: in preview mode every mapped character of the preview string
contributes its glyph identifier to the selection and no error is raised, but
an unmapped character is not skipped: each distinct unmapped character
contributes one `none` placeholder entry to the selection. -/
theorem preview_selection_amended (cmap : Cmap) (ps : String) :
    (∀ c ∈ ps.toList, ∀ g, dictGet cmap c.toNat = some g →
        some g ∈ previewSelection cmap ps) ∧
    (∀ c ∈ ps.toList, dictGet cmap c.toNat = none →
        (none : Option GlyphName) ∈ previewSelection cmap ps) ∧
    (previewSelection cmap ps).countP (fun g => g.isNone) =
      (ps.toList.dedup.filter (fun c => (dictGet cmap c.toNat).isNone)).length
    := by
  refine ⟨?_, ?_, ?_⟩
  · intro c hc g hg
    exact List.mem_map.mpr ⟨c, List.mem_dedup.mpr hc, hg⟩
  · intro c hc hg
    exact List.mem_map.mpr ⟨c, List.mem_dedup.mpr hc, hg⟩
  · unfold previewSelection
    rw [List.countP_map, List.countP_eq_length_filter]
    rfl

theorem preview_selection_amended_witness :
    some "A" ∈ previewSelection [(65, "A")] "AB" ∧
      (none : Option GlyphName) ∈ previewSelection [(65, "A")] "AB" :=
  ⟨(preview_selection_amended [(65, "A")] "AB").1 'A' (by decide) "A"
      (by decide),
    (preview_selection_amended [(65, "A")] "AB").2.1 'B' (by decide)
      (by decide)⟩

/-- C2 counterexample: for the rasterizer identifier no outline extraction is
performed even though the source font carries a glyf table: the assembled
glyph record has `outline = none` (and no width either). -/
theorem outline_extraction_cex :
    ttSample.hasGlyf = true ∧
      assembleGlyph "rasterizer" ttSample (reverseCmap ttSample.cmap)
          (some "A") =
        .ok { name := some "A", unicode := some 65, width := none,
              outline := none } :=
  ⟨rfl, rfl⟩

/-- C2 amended: outline extraction, exactly like the advance-width copy, is
restricted to the extruder filter identifier; for rasterizer and rotorizer
the assembly loop performs neither, while for the extruder both the width and
the outline (decoded from CFF, else CFF2, else glyf) are copied. -/
theorem outline_extraction_amended :
    (∀ fid : String, fid = "rasterizer" ∨ fid = "rotorizer" →
        ∀ (tt : TTFontData) (rev : List (GlyphName × CodePoint))
          (g : Option GlyphName),
          assembleGlyph fid tt rev g =
            .ok { name := g, unicode := g.bind (fun n => dictGet rev n),
                  width := none, outline := none }) ∧
    (∀ (tt : TTFontData) (rev : List (GlyphName × CodePoint))
        (n : GlyphName) (w : Nat),
        dictGet tt.hmtx n = some w →
        assembleGlyph "extruder" tt rev (some n) =
          .ok { name := some n, unicode := dictGet rev n, width := some w,
                outline := extractOutline tt }) ∧
    (∀ tt : TTFontData, (tt.hasCFF || tt.hasCFF2 || tt.hasGlyf) = true →
        (extractOutline tt).isSome = true) := by
  refine ⟨?_, ?_, ?_⟩
  · intro fid h tt rev g
    rcases h with h | h <;> subst h <;> rfl
  · intro tt rev n w h
    unfold assembleGlyph
    rw [if_pos (by decide)]
    simp only [Option.some_bind, h]
  · intro tt h
    unfold extractOutline
    cases hc : tt.hasCFF <;> cases hc2 : tt.hasCFF2 <;>
      cases hg : tt.hasGlyf <;> simp_all

theorem outline_extraction_amended_witness :
    assembleGlyph "rotorizer" ttSample (reverseCmap ttSample.cmap)
        (some "A") =
      .ok { name := some "A",
            unicode := (some "A").bind
              (fun n => dictGet (reverseCmap ttSample.cmap) n),
            width := none, outline := none } ∧
    assembleGlyph "extruder" ttSample (reverseCmap ttSample.cmap)
        (some "A") =
      .ok { name := some "A", unicode := dictGet (reverseCmap ttSample.cmap) "A",
            width := some 500, outline := extractOutline ttSample } :=
  ⟨outline_extraction_amended.1 "rotorizer" (Or.inr rfl) ttSample
      (reverseCmap ttSample.cmap) (some "A"),
    outline_extraction_amended.2.1 ttSample (reverseCmap ttSample.cmap)
      "A" 500 (by decide)⟩

/-- C4 counterexample: two preview characters that map to the same glyph
produce a duplicated entry which survives the closure step, so the closed
selection is not duplicate-free. -/
theorem closure_dup_cex :
    closeSelection ttTwoToOne (previewSelection ttTwoToOne.cmap "AB") =
        [some "A", some "A"] ∧
      ¬ (closeSelection ttTwoToOne
          (previewSelection ttTwoToOne.cmap "AB")).Nodup := by
  exact ⟨by decide, by decide⟩

/-- C4 amended: the closure step appends only new entries -- the appended
component glyphs are deduplicated and none of them is already present in the
initial selection, whose entries keep their original order as a prefix -- and
in download mode the closed selection is duplicate-free; but a preview-mode
initial selection may itself contain duplicates (two characters mapping to
the same glyph, or several unmapped characters each contributing a `none`
placeholder), and these survive the closure. -/
theorem closure_selection_amended :
    (∀ (tt : TTFontData) (initial : List (Option GlyphName)),
        ∃ comps : List GlyphName,
          closeSelection tt initial = initial ++ comps.map some ∧
            comps.Nodup ∧ ∀ g ∈ comps, some g ∉ initial) ∧
    (∀ (tt : TTFontData) (cmap : Cmap),
        (closeSelection tt
          ((downloadSelection (reverseCmap cmap)).map some)).Nodup) := by
  constructor
  · exact closeSelection_shape
  · intro tt cmap
    obtain ⟨comps, heq, hnd, hfresh⟩ :=
      closeSelection_shape tt ((downloadSelection (reverseCmap cmap)).map some)
    rw [heq, List.nodup_append]
    refine ⟨?_, hnd.map (Option.some_injective _), ?_⟩
    · exact (downloadSelection_nodup _ (reverseCmap_keys_nodup cmap)).map
        (Option.some_injective _)
    · intro a ha hb
      rw [List.mem_map] at hb
      obtain ⟨g, hg, rfl⟩ := hb
      exact hfresh g hg ha

theorem closure_selection_amended_witness :
    (closeSelection ttSample
      ((downloadSelection (reverseCmap ttSample.cmap)).map some)).Nodup :=
  closure_selection_amended.2 ttSample ttSample.cmap

/-- C6: in download mode a glyph enters the initial selection exactly when
its code point in the reversed character map lies in the inclusive range 32
to 126, and the download-mode selection ignores the preview string entirely.
-/
theorem download_selection_spec :
    (∀ (cmap : Cmap) (g : GlyphName),
        g ∈ downloadSelection (reverseCmap cmap) ↔
          ∃ cp, (g, cp) ∈ reverseCmap cmap ∧ 32 ≤ cp ∧ cp ≤ 126) ∧
    (∀ (cmap : Cmap) (ps1 ps2 : Option String),
        initialSelection true cmap ps1 = initialSelection true cmap ps2) := by
  constructor
  · intro cmap g
    rw [mem_downloadSelection]
    constructor
    · rintro ⟨cp, h1, h2⟩
      exact ⟨cp, h1, (is_in_ranges_iff cp).mp h2⟩
    · rintro ⟨cp, h1, h2, h3⟩
      exact ⟨cp, h1, (is_in_ranges_iff cp).mpr ⟨h2, h3⟩⟩
  · intro cmap ps1 ps2
    rfl

theorem download_selection_spec_witness :
    ("A" : GlyphName) ∈ downloadSelection (reverseCmap [(65, "A")]) :=
  (download_selection_spec.1 [(65, "A")] "A").mpr
    ⟨65, by decide, by decide, by decide⟩

/-- C7: the preview response carries the missing-characters warning exactly
when some character of the preview string has no glyph mapping (the warnings
list is empty otherwise), and the echoed preview string keeps exactly the
mapped characters in their original order. -/
theorem preview_response_spec (cmap : Cmap) (ps : String) :
    ((∃ c ∈ ps.toList, dictGet cmap c.toNat = none) →
        preview_warnings cmap ps = [missingWarning (missing_glyphs cmap ps)]) ∧
    ((∀ c ∈ ps.toList, (dictGet cmap c.toNat).isSome = true) →
        preview_warnings cmap ps = []) ∧
    preview_echo cmap ps =
      String.mk (ps.toList.filter (fun c => (dictGet cmap c.toNat).isSome)) := by
  refine ⟨?_, ?_, ?_⟩
  · rintro ⟨c, hc, hnone⟩
    have hmem : c ∈ missing_glyphs cmap ps :=
      List.mem_filter.mpr ⟨hc, by simp [hnone]⟩
    unfold preview_warnings
    rw [if_neg (List.ne_nil_of_mem hmem)]
  · intro hall
    have hmiss : missing_glyphs cmap ps = [] := by
      unfold missing_glyphs
      rw [List.filter_eq_nil_iff]
      intro c hc
      have := hall c hc
      simp [Option.isNone_eq_false_iff, Option.isSome_iff_ne_none] at this ⊢
      exact this
    unfold preview_warnings
    rw [if_pos hmiss]
  · unfold preview_echo
    congr 1
    apply List.filter_congr
    intro c hc
    cases h : dictGet cmap c.toNat with
    | none =>
      have hmem : c ∈ missing_glyphs cmap ps :=
        List.mem_filter.mpr ⟨hc, by simp [h]⟩
      simp [hmem]
    | some g =>
      have hmem : c ∉ missing_glyphs cmap ps := by
        intro hmem
        have := (List.mem_filter.mp hmem).2
        rw [h] at this
        simp at this
      simp [hmem]

theorem preview_response_spec_witness :
    preview_warnings [(65, "A")] "AB" =
        [missingWarning (missing_glyphs [(65, "A")] "AB")] ∧
      preview_warnings [(65, "A")] "A" = [] :=
  ⟨(preview_response_spec [(65, "A")] "AB").1 ⟨'B', by decide, by decide⟩,
    (preview_response_spec [(65, "A")] "A").2.1 (by decide)⟩

/-- C3 counterexample: with the preview string missing in preview mode the
pipeline parses the font first -- the parse failure is what surfaces, not a
validation error -- and with an empty preview string no failure occurs at
all: the request succeeds. -/
theorem preview_validation_cex :
    process_font "rasterizer" reqNoPS false failExternals =
        .error .fontParseError ∧
      (process_font "rasterizer" reqEmptyPS false
          (sampleExternals ttSample)).isOk = true :=
  ⟨rfl, rfl⟩

/-- C3 amended: a preview string longer than 30 characters fails with the
validation error before any font parsing (the outcome is the same for every
parse function); but a missing preview string in preview mode is not caught
by validation -- font parsing runs first and the missing string surfaces
only afterwards -- and an empty preview string passes validation and the
request does not fail at all. -/
theorem preview_validation_amended :
    (∀ (fid : String) (req : Request) (download : Bool) (E : Externals)
        (s : String),
        fid ∈ (["rasterizer", "rotorizer", "extruder"] : List String) →
        req.font_file.isSome = true →
        req.preview_string = some s → s ≠ "" → 30 < s.length →
        process_font fid req download E = .error .previewTooLong) ∧
    (∀ (fid : String) (req : Request) (E : Externals) (bytes : List Nat),
        fid ∈ (["rasterizer", "rotorizer", "extruder"] : List String) →
        req.font_file = some bytes →
        req.preview_string = none →
        process_font fid req false E =
          match E.parse bytes with
          | .error e => .error e
          | .ok _ => .error .previewStringNone) ∧
    (∀ (fid : String) (req : Request) (E : Externals) (bytes : List Nat)
        (tt : TTFontData),
        fid ∈ (["rasterizer", "rotorizer", "extruder"] : List String) →
        req.font_file = some bytes →
        req.preview_string = some "" →
        E.parse bytes = .ok tt →
        (process_font fid req false E).isOk = true) := by
  refine ⟨?_, ?_, ?_⟩
  · intro fid req download E s hfid hf hps hs hlen
    obtain ⟨bytes, hb⟩ := Option.isSome_iff_exists.mp hf
    have hlen2 : previewLengthCheck req.preview_string =
        .error .previewTooLong := by
      rw [hps]
      simp only [previewLengthCheck]
      rw [if_pos hs, if_pos hlen]
    simp only [process_font, hb, hlen2]
    rw [if_neg (not_not_intro (decide_eq_true hfid))]
  · intro fid req E bytes hfid hb hps
    have hok : previewLengthCheck req.preview_string = .ok () := by
      rw [hps]
      rfl
    simp only [process_font, hb, hok]
    rw [if_neg (not_not_intro (decide_eq_true hfid))]
    cases hp : E.parse bytes with
    | error e => rfl
    | ok tt =>
      rw [hps]
      rfl
  · intro fid req E bytes tt hfid hb hps hp
    have hok : previewLengthCheck req.preview_string = .ok () := by
      rw [hps]
      rfl
    simp only [process_font, hb, hok]
    rw [if_neg (not_not_intro (decide_eq_true hfid))]
    simp [hp, hps, initialSelection, previewSelection_empty,
      closeSelection_nil, assembleGlyphs, Except.isOk, Except.toBool]

theorem preview_validation_amended_witness :
    process_font "rasterizer" reqLongPS false failExternals =
        .error .previewTooLong ∧
      (process_font "rotorizer" reqEmptyPS false
          (sampleExternals ttSample)).isOk = true :=
  ⟨preview_validation_amended.1 "rasterizer" reqLongPS false failExternals
      "0123456789012345678901234567890" (by decide) (by decide) rfl
      (by decide) (by decide),
    preview_validation_amended.2.2 "rotorizer" reqEmptyPS
      (sampleExternals ttSample) [1, 2, 3] ttSample (by decide) rfl rfl rfl⟩

/-- C5: on every successful request the code writes the first output font to
the fixed shared path output.ttf (src/app.py line 162); a concrete
successful rasterizer preview run carries that save side effect, so the
pipeline's externally visible output is not restricted to the per-request
response payload. -/
theorem output_file_write_bug :
    (process_font "rasterizer" reqA false (sampleExternals ttSample)).isOk =
        true ∧
      Effect.saveFile "output.ttf" ∈
        effectsOf (process_font "rasterizer" reqA false
          (sampleExternals ttSample)) :=
  ⟨rfl, by decide⟩

/-- C8: on success the extruder response appends exactly one extra entry, the
encoded original upload bytes, after the single encoded transformed font (so
its fonts array has exactly 2 entries ending in the original bytes), while a
rasterizer response is a single encoded output font and a rotorizer response
is exactly the two encoded output fonts, with no appended raw-bytes entry. -/
theorem fonts_array_shape :
    (∀ (req : Request) (download : Bool) (E : Externals) (r : PipelineResult)
        (bytes : List Nat),
        req.font_file = some bytes →
        process_font "extruder" req download E = .ok r →
        ∃ f, r.fonts = [E.encodeFont f, E.encodeBytes bytes]) ∧
    (∀ (req : Request) (download : Bool) (E : Externals) (r : PipelineResult),
        process_font "rasterizer" req download E = .ok r →
        ∃ f, r.fonts = [E.encodeFont f]) ∧
    (∀ (req : Request) (download : Bool) (E : Externals) (r : PipelineResult),
        process_font "rotorizer" req download E = .ok r →
        ∃ f g, r.fonts = [E.encodeFont f, E.encodeFont g]) := by
  refine ⟨?_, ?_, ?_⟩
  · intro req download E r bytes hb h
    obtain ⟨tt, ufo, glyphs, hf⟩ :=
      process_font_ok_fonts "extruder" req download E r bytes hb h
    rw [if_pos rfl] at hf
    exact ⟨renameOutFont
        ((extruderStage E tt bytes req.preview_string ufo glyphs req.angle).2)
        "Extruded", by rw [hf]; rfl⟩
  · intro req download E r h
    cases hreq : req.font_file with
    | none =>
      have hmiss : process_font "rasterizer" req download E =
          .error .fontFileMissing := by
        unfold process_font
        rw [if_neg (by decide), hreq]
      rw [hmiss] at h
      exact absurd h (by simp)
    | some bytes =>
      obtain ⟨tt, ufo, glyphs, hf⟩ :=
        process_font_ok_fonts "rasterizer" req download E r bytes hreq h
      rw [if_neg (by decide)] at hf
      exact ⟨renameOutFont (E.rasterize ufo glyphs req.resolution)
        "Rasterized", by rw [hf]; rfl⟩
  · intro req download E r h
    cases hreq : req.font_file with
    | none =>
      have hmiss : process_font "rotorizer" req download E =
          .error .fontFileMissing := by
        unfold process_font
        rw [if_neg (by decide), hreq]
      rw [hmiss] at h
      exact absurd h (by simp)
    | some bytes =>
      obtain ⟨tt, ufo, glyphs, hf⟩ :=
        process_font_ok_fonts "rotorizer" req download E r bytes hreq h
      rw [if_neg (by decide)] at hf
      exact ⟨renameOutFont (E.rotorize ufo glyphs (reverseCmap tt.cmap)
          req.depth).1 "Rotorized Underlay",
        renameOutFont (E.rotorize ufo glyphs (reverseCmap tt.cmap)
          req.depth).2 "Rotorized Overlay", by rw [hf]; rfl⟩

theorem fonts_array_shape_witness :
    (∃ f, (processExtruderSample).fonts =
        [(sampleExternals ttSample).encodeFont f,
          (sampleExternals ttSample).encodeBytes [1, 2, 3]]) ∧
      (∃ f, (processRasterizerSample).fonts =
        [(sampleExternals ttSample).encodeFont f]) :=
  ⟨fonts_array_shape.1 reqA false (sampleExternals ttSample)
      processExtruderSample [1, 2, 3] rfl rfl,
    fonts_array_shape.2.1 reqA false (sampleExternals ttSample)
      processRasterizerSample rfl⟩

/-- C9: for each filter identifier the rename step applies the fixed
per-index suffix table -- the rasterizer dispatch yields exactly one font
renamed with Rasterized, the rotorizer dispatch exactly two fonts renamed
with Rotorized Underlay then Rotorized Overlay in that order, the extruder
dispatch exactly one font renamed with Extruded -- and the rename appends
the suffix to the identity regardless of which concrete representation
(defcon or TTFont) the filter returned. -/
theorem rename_suffix_spec :
    (∀ (E : Externals) (tt : TTFontData) (ff : List Nat) (req : Request)
        (ufo : UFO) (glyphs : List (Option GlyphName))
        (rev : List (GlyphName × CodePoint)),
        renameOutputs "rasterizer"
            (dispatchFilter "rasterizer" E tt ff req ufo glyphs rev) =
          [renameOutFont (E.rasterize ufo glyphs req.resolution)
            "Rasterized"]) ∧
    (∀ (E : Externals) (tt : TTFontData) (ff : List Nat) (req : Request)
        (ufo : UFO) (glyphs : List (Option GlyphName))
        (rev : List (GlyphName × CodePoint)),
        renameOutputs "rotorizer"
            (dispatchFilter "rotorizer" E tt ff req ufo glyphs rev) =
          [renameOutFont (E.rotorize ufo glyphs rev req.depth).1
              "Rotorized Underlay",
            renameOutFont (E.rotorize ufo glyphs rev req.depth).2
              "Rotorized Overlay"]) ∧
    (∀ (E : Externals) (tt : TTFontData) (ff : List Nat) (req : Request)
        (ufo : UFO) (glyphs : List (Option GlyphName))
        (rev : List (GlyphName × CodePoint)),
        renameOutputs "extruder"
            (dispatchFilter "extruder" E tt ff req ufo glyphs rev) =
          [renameOutFont
            (extruderStage E tt ff req.preview_string ufo glyphs req.angle).2
            "Extruded"]) ∧
    (∀ (ident : FontIdentity) (payload : Nat) (s : String),
        renameOutFont (.ufo ident payload) s =
          .ufo (appendSuffix ident s) payload) ∧
    (∀ (ident : FontIdentity) (payload : Nat) (s : String),
        renameOutFont (.tt ident payload) s =
          .tt (appendSuffix ident s) payload) :=
  ⟨fun _ _ _ _ _ _ _ => rfl, fun _ _ _ _ _ _ _ => rfl,
    fun _ _ _ _ _ _ _ => rfl, fun _ _ _ => rfl, fun _ _ _ => rfl⟩

/-- C10: for the extruder identifier -- the dispatch is the same in preview
and download mode -- the widths handed to the kerning extraction are the
hmtx advance widths restricted to the selected glyph set, the shaping
content handed to it is exactly the preview string the request supplied
(possibly absent), the extraction result is merged into the minimal font's
kerning table, and the filter is invoked on that prepared font. -/
theorem extruder_prep_spec :
    (∀ (E : Externals) (tt : TTFontData) (font_file : List Nat)
        (ps : Option String) (ufo : UFO) (glyphs : List (Option GlyphName))
        (angle : Int),
        (extruderStage E tt font_file ps ufo glyphs angle).1.widthsArg =
            extruderWidths tt.hmtx glyphs ∧
          (extruderStage E tt font_file ps ufo glyphs angle).1.contentArg =
            ps ∧
          (extruderStage E tt font_file ps ufo glyphs angle).1.fontBytesArg =
            font_file ∧
          (extruderStage E tt font_file ps ufo glyphs angle).1.ufo.kerning =
            mergeKerning ufo.kerning
              (E.extract_kerning_hb font_file (extruderWidths tt.hmtx glyphs)
                ps tt.cmap) ∧
          (extruderStage E tt font_file ps ufo glyphs angle).2 =
            E.extrude (extruderStage E tt font_file ps ufo glyphs angle).1.ufo
              glyphs angle) ∧
    (∀ (g : GlyphName) (w : Nat) (hmtx : List (GlyphName × Nat))
        (glyphs : List (Option GlyphName)),
        (g, w) ∈ extruderWidths hmtx glyphs ↔
          (g, w) ∈ hmtx ∧ some g ∈ glyphs) ∧
    (∀ (E : Externals) (tt : TTFontData) (ff : List Nat) (req : Request)
        (ufo : UFO) (glyphs : List (Option GlyphName))
        (rev : List (GlyphName × CodePoint)),
        dispatchFilter "extruder" E tt ff req ufo glyphs rev =
          [(extruderStage E tt ff req.preview_string ufo glyphs
            req.angle).2]) := by
  refine ⟨?_, ?_, ?_⟩
  · intro E tt font_file ps ufo glyphs angle
    exact ⟨rfl, rfl, rfl, rfl, rfl⟩
  · intro g w hmtx glyphs
    simp [extruderWidths, List.mem_filter]
  · intro E tt ff req ufo glyphs rev
    rfl

end NDF
